import Mathlib

/-!
Verification of `src/model/utils/diin/util/blocks.py`.

The module contains four TensorFlow graph-building utilities:
`length`, `biLSTM`, `last_output_v0`, `last_output`, `masked_softmax`.
We embed them shallowly: float tensors become real-valued arrays
(`List`-shaped where the tensor shape itself is at issue, index
functions `ℕ → ℝ` elsewhere), `tf.exp` becomes `Real.exp`, integer
tensors become `ℤ`, and the fallible `tf.gather` returns an `Option`.
-/

noncomputable section

namespace Blocks

/-- `tf.sign` on a real scalar: `-1` for negatives, `0` at zero, `1` for
positives (elementwise over a tensor). -/
def tfSign (x : ℝ) : ℝ :=
  if x < 0 then -1 else if x = 0 then 0 else 1

/-- `tf.cast(·, tf.int32)` on a float scalar: truncation toward zero.
On the non-negative integer-valued inputs produced in `length` this is
the floor. -/
def castInt (x : ℝ) : ℤ :=
  if 0 ≤ x then ⌊x⌋ else -⌊-x⌋

/-- Elementwise addition of two feature vectors (rows of equal width). -/
def addVec (v w : List ℝ) : List ℝ :=
  List.zipWith (fun a b => a + b) v w

/-- `tf.reduce_sum(·, axis=1)` on a 3-D tensor `(batch, time, feature)`:
per example, the elementwise sum of its `time` feature vectors, giving a
`(batch, feature)` tensor. -/
def reduceSumAxis1 (t : List (List (List ℝ))) : List (List ℝ) :=
  t.map (fun rows =>
    match rows with
    | [] => []
    | r :: rs => rs.foldl addVec r)

/-- `populated = tf.sign(tf.abs(sequence))` from `length`: the elementwise
indicator (as a float) that an entry of the 3-D input is nonzero. -/
def populated (seq : List (List (List ℝ))) : List (List (List ℝ)) :=
  seq.map (List.map (List.map (fun x => tfSign |x|)))

/-- The first component returned by `length`:
`tf.cast(tf.reduce_sum(populated, axis=1), tf.int32)`. -/
def length_out (seq : List (List (List ℝ))) : List (List ℤ) :=
  (reduceSumAxis1 (populated seq)).map (List.map castInt)

/-- The second component returned by `length`:
`tf.cast(tf.expand_dims(populated, -1), tf.float32)` — a trailing axis of
size 1 is appended, so every scalar becomes a singleton list. -/
def mask_out (seq : List (List (List ℝ))) : List (List (List (List ℝ))) :=
  (populated seq).map (List.map (List.map (fun x => [x])))

/-- The function `length(sequence)` of `blocks.py`: returns the pair
`(length, mask)`. -/
def length_tf (seq : List (List (List ℝ))) :
    List (List ℤ) × List (List (List (List ℝ))) :=
  (length_out seq, mask_out seq)

/-- `tf.reduce_max(·, 1)` over one example's time axis of size `T`: the
maximum of `s 0, …, s (T-1)` (for `T ≥ 1`; the `T = 0` value is junk, as
TensorFlow would reduce an empty axis). -/
def reduceMax (T : ℕ) (s : ℕ → ℝ) : ℝ :=
  ((List.range T).map s).foldr max (s 0)

/-- The`numerator` of `masked_softmax`:
`tf.exp(tf.subtract(scores, tf.reduce_max(scores, 1, keep_dims=True))) * mask`,
at batch index `b`, time index `t`, with time axis of size `T`. -/
def msNumerator (T : ℕ) (scores mask : ℕ → ℕ → ℝ) (b t : ℕ) : ℝ :=
  Real.exp (scores b t - reduceMax T (scores b)) * mask b t

/-- The `denominator` of `masked_softmax`:
`tf.reduce_sum(numerator, 1, keep_dims=True)`. -/
def msDenominator (T : ℕ) (scores mask : ℕ → ℕ → ℝ) (b : ℕ) : ℝ :=
  ∑ t in Finset.range T, msNumerator T scores mask b t

/-- The function `masked_softmax(scores, mask)` of `blocks.py`:
`weights = tf.div(numerator, denominator)`. Division by a zero
denominator is the unguarded branch (in ℝ it yields `0`, in TensorFlow a
NaN/Inf corruption). -/
def masked_softmax (T : ℕ) (scores mask : ℕ → ℕ → ℝ) (b t : ℕ) : ℝ :=
  msNumerator T scores mask b t / msDenominator T scores mask b

/-- `tf.reshape(output, [-1, out_size])` on a `(B, T, D)` tensor viewed as
an index function: row `i` of the flattened tensor is row `i % T` of
example `i / T`. -/
def flatten2 (T : ℕ) (output : ℕ → ℕ → ℕ → ℝ) : ℕ → ℕ → ℝ :=
  fun i d => output (i / T) (i % T) d

/-- The gather index of `last_output`:
`index = tf.range(0, batch_size) * max_length + (sequence_length - 1)` at
batch position `b` — an `int32` computation, so over `ℤ`. -/
def lastOutputIndex (T : ℕ) (len : ℕ → ℕ) (b : ℕ) : ℤ :=
  (b : ℤ) * (T : ℤ) + ((len b : ℤ) - 1)

/-- `tf.gather(flat, i)` for one row index `i` into a flattened tensor
with `n` rows: `none` models the out-of-range fault. -/
def tfGatherRow (n : ℕ) (flat : ℕ → ℕ → ℝ) (i : ℤ) : Option (ℕ → ℝ) :=
  if 0 ≤ i ∧ i < (n : ℤ) then some (fun d => flat i.toNat d) else none

/-- The function `last_output(output, sequence_length)` of `blocks.py`,
at batch position `b`: gathers row `lastOutputIndex T len b` of the
flattened `(B*T, D)` tensor. -/
def last_output (B T : ℕ) (output : ℕ → ℕ → ℕ → ℝ) (len : ℕ → ℕ)
    (b : ℕ) : Option (ℕ → ℝ) :=
  tfGatherRow (B * T) (flatten2 T output) (lastOutputIndex T len b)

/-- `tf.one_hot(idx, depth, on_value=1., off_value=0.)` at position `t`:
`1` exactly when `t` equals the (possibly negative) index `idx` and lies
in `[0, depth)`; an out-of-range `idx` gives an all-zero row. -/
def oneHot (depth : ℕ) (idx : ℤ) (t : ℕ) : ℝ :=
  if (t : ℤ) = idx ∧ t < depth then 1 else 0

/-- The function `last_output_v0(output, true_length)` of `blocks.py`, at
batch position `b`, feature `d`: the one-hot mask
`tf.one_hot(true_length-1, max_length)` is broadcast over the feature
axis, multiplied with `output` and summed over the time axis. -/
def last_output_v0 (T : ℕ) (output : ℕ → ℕ → ℕ → ℝ) (len : ℕ → ℕ)
    (b d : ℕ) : ℝ :=
  ∑ t in Finset.range T, output b t d * oneHot T ((len b : ℤ) - 1) t

/-- Modelled from the spec: the process-wide TensorFlow variable-scope
naming namespace into which recurrent-cell parameters are registered.
The registry itself lives in the TensorFlow library, not in this module;
the spec describes it as a process-wide namespace keyed by scope names. -/
structure VarScopeRegistry where
  scopes : List String

/-- Modelled from the spec: registering one variable scope in the
process-wide namespace raises a naming-collision error when the scope
name is already registered. -/
def registerScope (g : VarScopeRegistry) (s : String) :
    Except String VarScopeRegistry :=
  if s ∈ g.scopes then Except.error s else Except.ok ⟨s :: g.scopes⟩

/-- The scope registrations performed by `biLSTM(inputs, dim, seq_len, name)`:
`tf.variable_scope('forward' + name)` then
`tf.variable_scope('backward' + name)`, each creating an LSTM cell whose
parameters live under that scope. -/
def biLSTM_register (g : VarScopeRegistry) (name : String) :
    Except String VarScopeRegistry :=
  match registerScope g ("forward" ++ name) with
  | Except.error e => Except.error e
  | Except.ok g1 => registerScope g1 ("backward" ++ name)

/-- The input used for the C1/C5 failing case: batch size 1, 2 timesteps,
2 features; the first timestep vector `[1, 0]` is non-all-zero, the second
is all-zero padding, so the true length is 1. -/
def seqEx : List (List (List ℝ)) := [[[1, 0], [0, 0]]]

/-- Claim C1: for a 3-D input whose example has L = 1 non-all-zero
timesteps followed by zero padding, `length` is claimed to return one
integer per batch element equal to L. Evaluating the code at `seqEx`
instead yields `[[1, 0]]` — a per-feature count of shape
(batch, feature_dim), whose entries disagree with L = 1, because
`tf.sign(tf.abs(·))` is elementwise and `reduce_sum` runs over the time
axis without ever reducing the feature axis. -/
theorem length_out_eval_at_seqEx :
    (length_tf seqEx).1 = [[1, 0]] ∧ (length_tf seqEx).1 ≠ [[1], [1]] ∧
      (length_tf seqEx).1 ≠ [[1]] := by
  refine ⟨?_, ?_, ?_⟩ <;>
    norm_num [length_tf, seqEx, length_out, reduceSumAxis1, populated,
      addVec, tfSign, castInt]

/-- Claim C5: for the same input, the mask is claimed to be of shape
(batch, max_length, 1) with value 1.0 at each valid timestep. Evaluating
the code at `seqEx` instead yields a (batch, max_length, feature_dim, 1)
tensor `[[[[1], [0]], [[0], [0]]]]`: the elementwise nonzero indicator
with a trailing singleton axis, not 1.0 per valid timestep. -/
theorem mask_out_eval_at_seqEx :
    (length_tf seqEx).2 = [[[[1], [0]], [[0], [0]]]] := by
  norm_num [length_tf, seqEx, mask_out, populated, tfSign]

/-- Claim C7: if an example's length is 0 the flat gather index of
`last_output` is `b * max_length - 1`, outside the example's own block
`[b * max_length, (b+1) * max_length)` (equal to `-1` for the first
example); with length at least 1 and at most `max_length` the index lies
inside the block. -/
theorem lastOutputIndex_zero_length_out_of_block (T : ℕ) (len : ℕ → ℕ)
    (b : ℕ) :
    (len b = 0 → lastOutputIndex T len b = (b : ℤ) * T - 1 ∧
      ¬((b : ℤ) * T ≤ lastOutputIndex T len b ∧
        lastOutputIndex T len b < ((b : ℤ) + 1) * T)) ∧
    (len b = 0 → b = 0 → lastOutputIndex T len b = -1) ∧
    (1 ≤ len b → len b ≤ T →
      (b : ℤ) * T ≤ lastOutputIndex T len b ∧
        lastOutputIndex T len b < ((b : ℤ) + 1) * T) := by
  unfold lastOutputIndex
  have hexp : ((b : ℤ) + 1) * (T : ℤ) = (b : ℤ) * (T : ℤ) + (T : ℤ) := by
    ring
  refine ⟨fun h0 => ?_, fun h0 hb => ?_, fun h1 h2 => ?_⟩
  · rw [hexp, h0]
    generalize (b : ℤ) * (T : ℤ) = k
    omega
  · subst hb
    rw [h0]
    push_cast
    ring
  · rw [hexp]
    generalize (b : ℤ) * (T : ℤ) = k
    omega

/-- Claim C7 witness: with `max_length = 5`, lengths `[0, 3]` and batch
positions 0 and 1, the three conjuncts instantiate concretely. -/
theorem lastOutputIndex_zero_length_out_of_block_witness :
    ((fun _ : ℕ => 0) 0 = 0 →
      lastOutputIndex 5 (fun _ => 0) 0 = (0 : ℤ) * 5 - 1 ∧
      ¬((0 : ℤ) * 5 ≤ lastOutputIndex 5 (fun _ => 0) 0 ∧
        lastOutputIndex 5 (fun _ => 0) 0 < ((0 : ℤ) + 1) * 5)) ∧
    ((fun _ : ℕ => 0) 0 = 0 → 0 = 0 → lastOutputIndex 5 (fun _ => 0) 0 = -1) ∧
    (1 ≤ (fun _ : ℕ => 3) 1 → (fun _ : ℕ => 3) 1 ≤ 5 →
      (1 : ℤ) * 5 ≤ lastOutputIndex 5 (fun _ => 3) 1 ∧
        lastOutputIndex 5 (fun _ => 3) 1 < ((1 : ℤ) + 1) * 5) :=
  ⟨(lastOutputIndex_zero_length_out_of_block 5 (fun _ => 0) 0).1,
   (lastOutputIndex_zero_length_out_of_block 5 (fun _ => 0) 0).2.1,
   (lastOutputIndex_zero_length_out_of_block 5 (fun _ => 3) 1).2.2⟩

/-- Claim C7 counterexample: an example of length 4 with `max_length = 2`
has length at least 1, yet its flat gather index (3) escapes the first
example's block `[0, 2)`; so "length at least 1" alone does not keep the
index inside the block — the upper bound `length ≤ max_length` is also
needed. -/
theorem lastOutputIndex_length_gt_max_escapes_block :
    1 ≤ (fun _ : ℕ => 4) 0 ∧
    lastOutputIndex 2 (fun _ => 4) 0 = 3 ∧
    ¬((0 : ℤ) ≤ lastOutputIndex 2 (fun _ => 4) 0 ∧
      lastOutputIndex 2 (fun _ => 4) 0 < 2) := by
  refine ⟨by norm_num, by decide, by decide⟩

/-- Claim C8: the three tensor transformations are deterministic: two
runs on equal inputs produce equal outputs. Side-effect freedom holds by
construction of the embedding: each is a plain function of its inputs. -/
theorem blocks_functions_deterministic :
    (∀ s1 s2 : List (List (List ℝ)), s1 = s2 → length_tf s1 = length_tf s2) ∧
    (∀ (B T : ℕ) (o1 o2 : ℕ → ℕ → ℕ → ℝ) (l1 l2 : ℕ → ℕ),
      o1 = o2 → l1 = l2 →
      ∀ b, last_output B T o1 l1 b = last_output B T o2 l2 b) ∧
    (∀ (T : ℕ) (s1 s2 m1 m2 : ℕ → ℕ → ℝ), s1 = s2 → m1 = m2 →
      ∀ b t, masked_softmax T s1 m1 b t = masked_softmax T s2 m2 b t) := by
  refine ⟨fun s1 s2 h => by rw [h], fun B T o1 o2 l1 l2 ho hl b => ?_,
    fun T s1 s2 m1 m2 hs hm b t => ?_⟩
  · rw [ho, hl]
  · rw [hs, hm]

/-- Claim C8 witness: the determinism statement applied to concrete
equal inputs. -/
theorem blocks_functions_deterministic_witness :
    length_tf [[[0]]] = length_tf [[[0]]] :=
  blocks_functions_deterministic.1 [[[0]]] [[[0]]] rfl

/-- Claim C9: if a `biLSTM` call with a given `name` successfully
registers its two cell scopes (`'forward' + name`, `'backward' + name`)
in the process-wide namespace, a second call with the same `name` raises
a naming collision. -/
theorem biLSTM_register_twice_collides (g g2 : VarScopeRegistry)
    (name : String) (h : biLSTM_register g name = Except.ok g2) :
    ∃ e, biLSTM_register g2 name = Except.error e := by
  unfold biLSTM_register registerScope at h ⊢
  by_cases h1 : ("forward" ++ name) ∈ g.scopes
  · simp [h1] at h
  · simp only [h1, if_false, if_neg] at h
    by_cases h2 : ("backward" ++ name) ∈ ("forward" ++ name) :: g.scopes
    · simp [h1, h2] at h
    · simp only [if_neg h1, if_neg h2, Except.ok.injEq] at h
      subst h
      refine ⟨"forward" ++ name, ?_⟩
      simp [List.mem_cons]

/-- Claim C9 witness: starting from an empty namespace, the first
`biLSTM` registration with name `"lstm"` succeeds and the second with the
same name collides. -/
theorem biLSTM_register_twice_collides_witness :
    biLSTM_register ⟨[]⟩ "lstm" =
      Except.ok ⟨["backwardlstm", "forwardlstm"]⟩ ∧
    ∃ e, biLSTM_register ⟨["backwardlstm", "forwardlstm"]⟩ "lstm" =
      Except.error e :=
  ⟨by rfl,
   biLSTM_register_twice_collides ⟨[]⟩ ⟨["backwardlstm", "forwardlstm"]⟩
     "lstm" (by rfl)⟩

lemma msNumerator_of_mask_zero (T : ℕ) (scores mask : ℕ → ℕ → ℝ) (b t : ℕ)
    (h : mask b t = 0) : msNumerator T scores mask b t = 0 := by
  simp [msNumerator, h]

lemma msNumerator_of_mask_one (T : ℕ) (scores mask : ℕ → ℕ → ℝ) (b t : ℕ)
    (h : mask b t = 1) :
    msNumerator T scores mask b t = Real.exp (scores b t - reduceMax T (scores b)) := by
  simp [msNumerator, h]

lemma msNumerator_nonneg (T : ℕ) (scores mask : ℕ → ℕ → ℝ) (b t : ℕ)
    (h : mask b t = 0 ∨ mask b t = 1) :
    0 ≤ msNumerator T scores mask b t := by
  rcases h with h | h
  · rw [msNumerator_of_mask_zero T scores mask b t h]
  · rw [msNumerator_of_mask_one T scores mask b t h]
    exact (Real.exp_pos _).le

lemma msDenominator_pos (T : ℕ) (scores mask : ℕ → ℕ → ℝ) (b : ℕ)
    (h01 : ∀ t < T, mask b t = 0 ∨ mask b t = 1)
    (hex : ∃ t, t < T ∧ mask b t = 1) :
    0 < msDenominator T scores mask b := by
  obtain ⟨t0, ht0, hm0⟩ := hex
  refine Finset.sum_pos' (fun t ht => msNumerator_nonneg T scores mask b t
    (h01 t (Finset.mem_range.mp ht))) ⟨t0, Finset.mem_range.mpr ht0, ?_⟩
  rw [msNumerator_of_mask_one T scores mask b t0 hm0]
  exact Real.exp_pos _

/-- Claim C2: for a {0,1}-valued mask with at least one valid position in
the example, `masked_softmax` sums to 1 over the valid (mask = 1)
positions along the time axis and is exactly 0 at every masked
(mask = 0) position. -/
theorem masked_softmax_normalizes (T : ℕ) (scores mask : ℕ → ℕ → ℝ) (b : ℕ)
    (h01 : ∀ t < T, mask b t = 0 ∨ mask b t = 1)
    (hex : ∃ t, t < T ∧ mask b t = 1) :
    (∑ t in (Finset.range T).filter (fun t => mask b t = 1),
        masked_softmax T scores mask b t) = 1 ∧
    ∀ t, mask b t = 0 → masked_softmax T scores mask b t = 0 := by
  have hpos := msDenominator_pos T scores mask b h01 hex
  constructor
  · have hfull : (∑ t in (Finset.range T).filter (fun t => mask b t = 1),
        msNumerator T scores mask b t) = msDenominator T scores mask b := by
      rw [msDenominator]
      refine Finset.sum_filter_of_ne (fun t ht hne => ?_)
      rcases h01 t (Finset.mem_range.mp ht) with h | h
      · exact absurd (msNumerator_of_mask_zero T scores mask b t h) hne
      · exact h
    calc (∑ t in (Finset.range T).filter (fun t => mask b t = 1),
            masked_softmax T scores mask b t)
        = (∑ t in (Finset.range T).filter (fun t => mask b t = 1),
            msNumerator T scores mask b t) / msDenominator T scores mask b := by
          rw [Finset.sum_div]
          rfl
      _ = msDenominator T scores mask b / msDenominator T scores mask b := by
          rw [hfull]
      _ = 1 := div_self hpos.ne'
  · intro t ht
    rw [masked_softmax, msNumerator_of_mask_zero T scores mask b t ht,
      zero_div]

/-- Claim C2 witness: with two timesteps, zero scores and the mask valid
only at timestep 0, the softmax sums to 1 over the valid position and is
0 at the masked one. -/
theorem masked_softmax_normalizes_witness :
    (∀ t < 2, (fun _ t : ℕ => if t = 0 then (1 : ℝ) else 0) 0 t = 0 ∨
       (fun _ t : ℕ => if t = 0 then (1 : ℝ) else 0) 0 t = 1) ∧
    (∃ t, t < 2 ∧ (fun _ t : ℕ => if t = 0 then (1 : ℝ) else 0) 0 t = 1) ∧
    ((∑ t in (Finset.range 2).filter
        (fun t => (fun _ t : ℕ => if t = 0 then (1 : ℝ) else 0) 0 t = 1),
        masked_softmax 2 (fun _ _ => 0)
          (fun _ t : ℕ => if t = 0 then (1 : ℝ) else 0) 0 t) = 1 ∧
      ∀ t, (fun _ t : ℕ => if t = 0 then (1 : ℝ) else 0) 0 t = 0 →
        masked_softmax 2 (fun _ _ => 0)
          (fun _ t : ℕ => if t = 0 then (1 : ℝ) else 0) 0 t = 0) := by
  refine ⟨?_, ?_, ?_⟩
  · intro t ht
    interval_cases t <;> norm_num
  · exact ⟨0, by norm_num⟩
  · exact masked_softmax_normalizes 2 (fun _ _ => 0)
      (fun _ t : ℕ => if t = 0 then (1 : ℝ) else 0) 0
      (by intro t ht; interval_cases t <;> norm_num) ⟨0, by norm_num⟩

/-- Claim C6: with a {0,1}-valued mask, the `masked_softmax` denominator
of an example is zero exactly when every position of the example is
masked out; with at least one valid position it is strictly positive, so
the division-by-zero branch is unreachable. -/
theorem msDenominator_zero_iff_all_masked (T : ℕ) (scores mask : ℕ → ℕ → ℝ)
    (b : ℕ) (h01 : ∀ t < T, mask b t = 0 ∨ mask b t = 1) :
    (msDenominator T scores mask b = 0 ↔ ∀ t < T, mask b t = 0) ∧
    ((∃ t, t < T ∧ mask b t = 1) → 0 < msDenominator T scores mask b) := by
  constructor
  · rw [msDenominator,
      Finset.sum_eq_zero_iff_of_nonneg (fun t ht => msNumerator_nonneg
        T scores mask b t (h01 t (Finset.mem_range.mp ht)))]
    constructor
    · intro h t ht
      have h0 := h t (Finset.mem_range.mpr ht)
      rcases h01 t ht with hm | hm
      · exact hm
      · rw [msNumerator_of_mask_one T scores mask b t hm] at h0
        exact absurd h0 (Real.exp_pos _).ne'
    · intro h t ht
      exact msNumerator_of_mask_zero T scores mask b t
        (h t (Finset.mem_range.mp ht))
  · exact msDenominator_pos T scores mask b h01

/-- Claim C6 witness: with two timesteps and the mask valid at timestep
1 only, the denominator characterization instantiates concretely. -/
theorem msDenominator_zero_iff_all_masked_witness :
    (∀ t < 2, (fun _ t : ℕ => if t = 1 then (1 : ℝ) else 0) 0 t = 0 ∨
       (fun _ t : ℕ => if t = 1 then (1 : ℝ) else 0) 0 t = 1) ∧
    ((msDenominator 2 (fun _ _ => 0)
        (fun _ t : ℕ => if t = 1 then (1 : ℝ) else 0) 0 = 0 ↔
      ∀ t < 2, (fun _ t : ℕ => if t = 1 then (1 : ℝ) else 0) 0 t = 0) ∧
     ((∃ t, t < 2 ∧ (fun _ t : ℕ => if t = 1 then (1 : ℝ) else 0) 0 t = 1) →
       0 < msDenominator 2 (fun _ _ => 0)
         (fun _ t : ℕ => if t = 1 then (1 : ℝ) else 0) 0)) := by
  constructor
  · intro t ht
    interval_cases t <;> norm_num
  · exact msDenominator_zero_iff_all_masked 2 (fun _ _ => 0)
      (fun _ t : ℕ => if t = 1 then (1 : ℝ) else 0) 0
      (by intro t ht; interval_cases t <;> norm_num)

lemma reduceMax_shift (T : ℕ) (s : ℕ → ℝ) (c : ℝ) :
    reduceMax T (fun t => s t + c) = reduceMax T s + c := by
  unfold reduceMax
  suffices h : ∀ (l : List ℕ) (x : ℝ),
      (l.map (fun t => s t + c)).foldr max (x + c) =
        (l.map s).foldr max x + c by
    exact h (List.range T) (s 0)
  intro l
  induction l with
  | nil => intro x; simp
  | cons a l ih =>
    intro x
    simp [List.foldr, ih, max_add_add_right]

/-- Claim C4: `masked_softmax` is invariant under adding one constant to
every score, thanks to the subtraction of the per-example maximum before
exponentiating. -/
theorem masked_softmax_shift_invariant (T : ℕ) (scores mask : ℕ → ℕ → ℝ)
    (c : ℝ) (b t : ℕ) :
    masked_softmax T (fun u v => scores u v + c) mask b t =
      masked_softmax T scores mask b t := by
  simp only [masked_softmax, msNumerator, msDenominator, reduceMax_shift,
    add_sub_add_right_eq_sub]

lemma last_output_spec (B T : ℕ) (output : ℕ → ℕ → ℕ → ℝ) (len : ℕ → ℕ)
    (b : ℕ) (hB : b < B) (h1 : 1 ≤ len b) (h2 : len b ≤ T) :
    last_output B T output len b = some (fun d => output b (len b - 1) d) := by
  have hT : 0 < T := lt_of_lt_of_le (by omega) h2
  have hr : len b - 1 < T := by omega
  have hn : b * T + (len b - 1) < B * T := by
    calc b * T + (len b - 1) < b * T + T := by omega
      _ = (b + 1) * T := by ring
      _ ≤ B * T := Nat.mul_le_mul_right T (by omega)
  have hcast : lastOutputIndex T len b = ((b * T + (len b - 1) : ℕ) : ℤ) := by
    unfold lastOutputIndex
    push_cast [Nat.cast_sub h1]
    ring
  have hdiv : (b * T + (len b - 1)) / T = b := by
    rw [mul_comm, Nat.mul_add_div hT, Nat.div_eq_of_lt hr, add_zero]
  have hmod : (b * T + (len b - 1)) % T = len b - 1 := by
    rw [mul_comm b T, Nat.mul_add_mod]
    exact Nat.mod_eq_of_lt hr
  unfold last_output tfGatherRow
  rw [hcast, if_pos ⟨Int.ofNat_zero_le _, by exact_mod_cast hn⟩]
  refine congrArg some (funext fun d => ?_)
  simp only [flatten2, Int.toNat_natCast, hdiv, hmod]

/-- Claim C3: for lengths between 1 and `max_length`, `last_output`
returns, for each batch position `b`, the row `output[b, len b - 1, :]`,
obtained by gathering at flat index `b * max_length + len b - 1` in the
flattened tensor. -/
theorem last_output_selects_last_valid (B T : ℕ) (output : ℕ → ℕ → ℕ → ℝ)
    (len : ℕ → ℕ) (b : ℕ) (hB : b < B) (h1 : 1 ≤ len b) (h2 : len b ≤ T) :
    last_output B T output len b = some (fun d => output b (len b - 1) d) :=
  last_output_spec B T output len b hB h1 h2

/-- Claim C3 witness: with one example of length 3 in a sequence of
max length 5 and the output at time `t` constantly `t`, `last_output`
returns the feature vector at 0-based time index 2. -/
theorem last_output_selects_last_valid_witness :
    0 < 1 ∧ 1 ≤ 3 ∧ 3 ≤ 5 ∧
    last_output 1 5 (fun _ t _ => (t : ℝ)) (fun _ => 3) 0 =
      some (fun _ => ((2 : ℕ) : ℝ)) := by
  refine ⟨by omega, by omega, by omega, ?_⟩
  exact last_output_selects_last_valid 1 5 (fun _ t _ => (t : ℝ))
    (fun _ => 3) 0 (by norm_num) (by norm_num) (by norm_num)

lemma last_output_v0_spec (T : ℕ) (output : ℕ → ℕ → ℕ → ℝ) (len : ℕ → ℕ)
    (b d : ℕ) (h1 : 1 ≤ len b) (h2 : len b ≤ T) :
    last_output_v0 T output len b d = output b (len b - 1) d := by
  unfold last_output_v0 oneHot
  rw [Finset.sum_eq_single_of_mem (len b - 1)
    (Finset.mem_range.mpr (by omega))]
  · rw [if_pos ⟨by omega, by omega⟩, mul_one]
  · intro t ht hne
    rw [if_neg, mul_zero]
    rintro ⟨hc, -⟩
    exact hne (by omega)

/-- Claim C10: the two implementations of last-valid-output selection
agree for lengths between 1 and `max_length`: the one-hot/sum version
`last_output_v0` computes the same row that the flatten/gather version
`last_output` returns. -/
theorem last_output_agrees_with_v0 (B T : ℕ) (output : ℕ → ℕ → ℕ → ℝ)
    (len : ℕ → ℕ) (b : ℕ) (hB : b < B) (h1 : 1 ≤ len b) (h2 : len b ≤ T) :
    last_output B T output len b =
      some (fun d => last_output_v0 T output len b d) := by
  rw [last_output_spec B T output len b hB h1 h2]
  exact congrArg some (funext fun d =>
    (last_output_v0_spec T output len b d h1 h2).symm)

/-- Claim C10 witness: the agreement of the two implementations at a
concrete batch of one example with length 2 out of 3 timesteps. -/
theorem last_output_agrees_with_v0_witness :
    0 < 1 ∧ 1 ≤ 2 ∧ 2 ≤ 3 ∧
    last_output 1 3 (fun _ t d => (t : ℝ) + d) (fun _ => 2) 0 =
      some (fun d => last_output_v0 3 (fun _ t d => (t : ℝ) + d)
        (fun _ => 2) 0 d) := by
  refine ⟨by omega, by omega, by omega, ?_⟩
  exact last_output_agrees_with_v0 1 3 (fun _ t d => (t : ℝ) + d)
    (fun _ => 2) 0 (by norm_num) (by norm_num) (by norm_num)

end Blocks
